import Mathlib

/-!
Shallow embedding of the water-parcel routing and free-surface engine of
`pyDeltaRCM/water_tools.py`, together with theorems settling the frozen
claims about it.

Modelling conventions:
* numpy float arrays of shape `(L, W)` become total functions `ℕ → ℕ → ℚ`
  (exact rational arithmetic in place of IEEE floats); the program only
  ever reads indices inside the grid;
* integer arrays (`cell_type`, parcel indices, flags) use `ℤ`;
* the floating-point square root (which has no exact rational counterpart)
  is passed in as an abstract function `sqrt : ℚ → ℚ`; no claim below
  depends on its value, so theorems quantify over it;
* the attributes of the Python `self` object are collected in one
  structure `DeltaModel`; each method of `water_tools` becomes a function
  `DeltaModel → DeltaModel`, each jitted free function a standalone `def`.
-/

namespace WaterTools

/-- A per-cell scalar field (a numpy float array of shape `(L, W)`). -/
def Fld : Type := ℕ → ℕ → ℚ

/-- A per-cell integer field, e.g. `cell_type`. -/
def IFld : Type := ℕ → ℕ → ℤ

/-- The `self` object of the `water_tools` mixin: grid fields, parcel
bookkeeping arrays and scalar parameters read by the water routines. -/
structure DeltaModel where
  L : ℕ
  W : ℕ
  stage : Fld
  depth : Fld
  eta : Fld
  cell_type : IFld
  qx : Fld
  qy : Fld
  qw : Fld
  qxn : Fld
  qyn : Fld
  qwn : Fld
  ux : Fld
  uy : Fld
  uw : Fld
  sfc_visit : Fld
  sfc_sum : Fld
  free_surf_walk_indices : ℕ → ℕ → ℤ
  looped : ℕ → ℤ
  free_surf_flag : ℕ → ℤ
  inlet : ℕ → Bool
  H_SL : ℚ
  dry_depth : ℚ
  u_max : ℚ
  omega_sfc : ℚ
  omega_flow : ℚ
  omega_flow_iter : ℚ
  qw0 : ℚ
  Csmooth : ℚ
  Nsmooth : ℕ
  time_iter : ℕ
  L0 : ℕ
  CTR : ℤ
  stepmax : ℕ
  Np_water : ℕ
  Qp_water : ℚ
  dx : ℚ
  u0 : ℚ
  h0 : ℚ
  S0 : ℚ

/-- Modelled from the spec: `shared_tools.custom_unravel` is not under
`src/`; the spec (§3) describes parcel positions as flattened row-major
grid coordinates, so unravelling divides by the row width.  For the
nonnegative indices the program uses, Euclidean division and modulus agree
with Python's floor division. -/
def custom_unravel (ind : ℤ) (W : ℕ) : ℤ × ℤ :=
  (ind.ediv W, ind.emod W)

/-- Modelled from the spec: `shared_tools.custom_ravel`, the inverse
row-major flattening of a coordinate pair. -/
def custom_ravel (xy : ℤ × ℤ) (W : ℕ) : ℤ :=
  xy.1 * W + xy.2

/-- `water_tools.update_flow_field` (water_tools.py lines 254-288).
`sqrt` abstracts `(...)**(0.5)`. -/
def update_flow_field (sqrt : ℚ → ℚ) (s : DeltaModel) (iteration : ℕ) :
    DeltaModel :=
  let dloc : Fld := fun i j => sqrt (s.qxn i j ^ 2 + s.qyn i j ^ 2)
  let qwn_div : Fld := fun i j =>
    if dloc i j > 0 then s.qwn i j / dloc i j else 1
  let qxn1 : Fld := fun i j => s.qxn i j * qwn_div i j
  let qyn1 : Fld := fun i j => s.qyn i j * qwn_div i j
  let omega : ℚ := if iteration = 0 then s.omega_flow else s.omega_flow_iter
  let qx1 : Fld :=
    if s.time_iter > 0 then
      fun i j => qxn1 i j * omega + s.qx i j * (1 - omega)
    else qxn1
  let qy1 : Fld :=
    if s.time_iter > 0 then
      fun i j => qyn1 i j * omega + s.qy i j * (1 - omega)
    else qyn1
  let qw1 : Fld := fun i j => sqrt (qx1 i j ^ 2 + qy1 i j ^ 2)
  let qx2 : Fld := fun i j => if i = 0 ∧ s.inlet j then s.qw0 else qx1 i j
  let qy2 : Fld := fun i j => if i = 0 ∧ s.inlet j then 0 else qy1 i j
  let qw2 : Fld := fun i j => if i = 0 ∧ s.inlet j then s.qw0 else qw1 i j
  { s with qxn := qxn1, qyn := qyn1, qx := qx2, qy := qy2, qw := qw2 }

/-- `water_tools.update_velocity_field` (water_tools.py lines 290-306). -/
def update_velocity_field (s : DeltaModel) : DeltaModel :=
  let uw1 : Fld := fun i j =>
    if s.depth i j > s.dry_depth ∧ s.qw i j > 0 then
      min s.u_max (s.qw i j / s.depth i j)
    else 0
  let ux1 : Fld := fun i j =>
    if s.depth i j > s.dry_depth ∧ s.qw i j > 0 then
      uw1 i j * s.qx i j / s.qw i j
    else 0
  let uy1 : Fld := fun i j =>
    if s.depth i j > s.dry_depth ∧ s.qw i j > 0 then
      uw1 i j * s.qy i j / s.qw i j
    else 0
  { s with uw := uw1, ux := ux1, uy := uy1 }

/-- `water_tools.finalize_water_iteration` (water_tools.py lines 115-127):
floor the stage at sea level, recompute the depth, then update the flow and
velocity fields. -/
def finalize_water_iteration (sqrt : ℚ → ℚ) (s : DeltaModel)
    (iteration : ℕ) : DeltaModel :=
  let s1 := { s with stage := fun i j => max (s.stage i j) s.H_SL }
  let s2 := { s1 with depth := fun i j => max (s1.stage i j - s1.eta i j) 0 }
  update_velocity_field (update_flow_field sqrt s2 iteration)

/-- Base assignment of `water_tools.build_weight_array` (lines 353-371):
`wgt_array[d]` holds, at each in-grid cell, the value of `array` at the
cell's d-th compass neighbor (E, NE, N, NW, W, SW, S, SE), and keeps the
initial zero where the slice assignment does not reach (out-of-grid
neighbor). -/
def build_weight_base (L W : ℕ) (a : Fld) : ℕ → ℕ → ℕ → ℚ := fun d i j =>
  if i < L ∧ j < W then
    if d = 0 then (if j + 1 < W then a i (j+1) else 0)
    else if d = 1 then (if 1 ≤ i ∧ j + 1 < W then a (i-1) (j+1) else 0)
    else if d = 2 then (if 1 ≤ i then a (i-1) j else 0)
    else if d = 3 then (if 1 ≤ i ∧ 1 ≤ j then a (i-1) (j-1) else 0)
    else if d = 4 then (if 1 ≤ j then a i (j-1) else 0)
    else if d = 5 then (if i + 1 < L ∧ 1 ≤ j then a (i+1) (j-1) else 0)
    else if d = 6 then (if i + 1 < L then a (i+1) j else 0)
    else if d = 7 then (if i + 1 < L ∧ j + 1 < W then a (i+1) (j+1) else 0)
    else 0
  else 0

/-- One `wgt_array[d0, :, tgt] = wgt_array[d0, :, src]` fix-up assignment
of `build_weight_array` (columns `-1`, `-2`, `0`, `1` of the numpy code
are passed here as the resolved indices `W-1`, `W-2`, `0`, `1`). -/
def fix_col (d0 tgt src : ℕ) (w : ℕ → ℕ → ℕ → ℚ) : ℕ → ℕ → ℕ → ℚ :=
  fun d i j => if d = d0 ∧ j = tgt then w d0 i src else w d i j

/-- One `wgt_array[d0, tgt, :] = wgt_array[d0, src, :]` fix-up assignment
of `build_weight_array`. -/
def fix_row (d0 tgt src : ℕ) (w : ℕ → ℕ → ℕ → ℚ) : ℕ → ℕ → ℕ → ℚ :=
  fun d i j => if d = d0 ∧ i = tgt then w d0 src j else w d i j

/-- `water_tools.build_weight_array` (lines 353-392), without the
`normalize` branch (no caller embedded here passes `normalize=True`).
The twelve `fix_edges` assignments are applied in source order (rightmost
component of the composition first). -/
def build_weight_array (L W : ℕ) (a : Fld) (fix_edges : Bool) :
    ℕ → ℕ → ℕ → ℚ :=
  let base := build_weight_base L W a
  if fix_edges then
    (fix_row 7 (L-1) (L-2) ∘ fix_row 6 (L-1) (L-2) ∘ fix_row 5 (L-1) (L-2) ∘
     fix_col 5 0 1 ∘ fix_col 4 0 1 ∘ fix_col 3 0 1 ∘
     fix_row 3 0 1 ∘ fix_row 2 0 1 ∘ fix_row 1 0 1 ∘
     fix_col 7 (W-1) (W-2) ∘ fix_col 1 (W-1) (W-2) ∘ fix_col 0 (W-1) (W-2))
      base
  else base

/-- `water_tools.get_wet_mask_nh` (lines 342-351). -/
def get_wet_mask_nh (s : DeltaModel) : ℕ → ℕ → ℕ → ℚ :=
  build_weight_array s.L s.W
    (fun i j => if s.depth i j > s.dry_depth then 1 else 0) true

/-- The grid cells in raster (row-major) order, the order in which
`np.where` enumerates indices and in which nested `for i ... for j`
loops visit cells. -/
def raster_cells (L W : ℕ) : List (ℕ × ℕ) :=
  (List.range L).flatMap fun i => (List.range W).map fun j => (i, j)

/-- Sum of the eight neighbor entries of a direction-indexed array
(`np.sum(..., axis=0)`). -/
def nh_sum (w : ℕ → ℕ → ℕ → ℚ) (i j : ℕ) : ℚ :=
  w 0 i j + w 1 i j + w 2 i j + w 3 i j +
    w 4 i j + w 5 i j + w 6 i j + w 7 i j

/-- Python `max` over the eight neighbor entries of a direction-indexed
array. -/
def nh_max (w : ℕ → ℕ → ℕ → ℚ) (i j : ℕ) : ℚ :=
  max (w 0 i j) (max (w 1 i j) (max (w 2 i j) (max (w 3 i j)
    (max (w 4 i j) (max (w 5 i j) (max (w 6 i j) (w 7 i j)))))))

/-- The `(stage_nh > eta_shore[i]).any()` test: some neighbor entry
exceeds the threshold. -/
def nh_gt (w : ℕ → ℕ → ℕ → ℚ) (i j : ℕ) (t : ℚ) : Prop :=
  t < w 0 i j ∨ t < w 1 i j ∨ t < w 2 i j ∨ t < w 3 i j ∨
    t < w 4 i j ∨ t < w 5 i j ∨ t < w 6 i j ∨ t < w 7 i j

instance nh_gt.decidable (w : ℕ → ℕ → ℕ → ℚ) (i j : ℕ) (t : ℚ) :
    Decidable (nh_gt w i j t) := by
  unfold nh_gt
  infer_instance

/-- The loop-local `stage_nh` vector of `flooding_correction`: the wet
mask applied to the neighbor stages (dry or out-of-grid neighbors read as
stage zero). -/
def stage_nh (s : DeltaModel) : ℕ → ℕ → ℕ → ℚ := fun d i j =>
  get_wet_mask_nh s d i j * build_weight_array s.L s.W s.stage false d i j

/-- `water_tools.flooding_correction` (lines 308-340).  The Python loop
ranges over `np.where`'s raster-order list of shore cells; every loop
iteration writes a value computed only from arrays built before the loop,
so the iterations are independent and the loop is modelled as a fold over
all raster cells guarded by the shore test. -/
def flooding_correction (s : DeltaModel) : DeltaModel :=
  let wet_mask_nh_sum : Fld := fun i j =>
    if s.depth i j > s.dry_depth then 0 else nh_sum (get_wet_mask_nh s) i j
  let step : Fld → (ℕ × ℕ) → Fld := fun st c =>
    if wet_mask_nh_sum c.1 c.2 > 0 ∧
        nh_gt (stage_nh s) c.1 c.2 (s.eta c.1 c.2) then
      fun i j => if i = c.1 ∧ j = c.2 then nh_max (stage_nh s) c.1 c.2
                 else st i j
    else st
  { s with stage := (raster_cells s.L s.W).foldl step s.stage }

/-- A fully populated concrete model used to instantiate witnesses and
counterexamples. -/
def exBase : DeltaModel where
  L := 2
  W := 2
  stage := fun _ _ => 0
  depth := fun _ _ => 0
  eta := fun _ _ => 0
  cell_type := fun _ _ => 0
  qx := fun _ _ => 0
  qy := fun _ _ => 0
  qw := fun _ _ => 0
  qxn := fun _ _ => 0
  qyn := fun _ _ => 0
  qwn := fun _ _ => 0
  ux := fun _ _ => 0
  uy := fun _ _ => 0
  uw := fun _ _ => 0
  sfc_visit := fun _ _ => 0
  sfc_sum := fun _ _ => 0
  free_surf_walk_indices := fun _ _ => 0
  looped := fun _ => 0
  free_surf_flag := fun _ => 0
  inlet := fun _ => false
  H_SL := 0
  dry_depth := 0
  u_max := 1
  omega_sfc := 1
  omega_flow := 1
  omega_flow_iter := 1
  qw0 := 1
  Csmooth := 0
  Nsmooth := 1
  time_iter := 0
  L0 := 1
  CTR := 0
  stepmax := 10
  Np_water := 1
  Qp_water := 1
  dx := 1
  u0 := 1
  h0 := 1
  S0 := 0

/-- Concrete model for the C3 counterexample: a dry cell `(0,0)` with a
high stage, whose wet neighbor `(0,1)` has a stage above the dry cell's
bed elevation but below the dry cell's own stage. -/
def ex3 : DeltaModel :=
  { exBase with
    dry_depth := 1
    depth := fun i j => if i = 0 ∧ j = 0 then 1
                        else if i = 0 ∧ j = 1 then 2 else 0
    stage := fun i j => if i = 0 ∧ j = 0 then 10
                        else if i = 0 ∧ j = 1 then 5 else 0 }

/-- Edge-replicating pad `np.pad(a, 1, 'edge')` of an `(L, W)` field:
entry `(x, y)` of the `(L+2, W+2)` padded array is the clamped original
entry (truncated ℕ subtraction realizes the lower clamp). -/
def pad_edge (L W : ℕ) (a : Fld) : Fld := fun x y =>
  a (min (x - 1) (L - 1)) (min (y - 1) (W - 1))

/-- Edge-replicating pad of an integer field (e.g. `pad_cell_type`). -/
def pad_edge_int (L W : ℕ) (a : IFld) : IFld := fun x y =>
  a (min (x - 1) (L - 1)) (min (y - 1) (W - 1))

/-- State of the `_smooth_free_surface` loops: `P` models the shared
padded array `Hnew_pad` (mutated in place through the numpy view
`Hnew_ind[1, 1] = 0`), `T` models `Htemp` (the same storage as `Hsmth`
and the caller's `Hnew`). -/
structure SmoothState where
  P : Fld
  T : Fld

/-- Sum of the nine 3x3-window entries (`np.sum(Hnew_ind)` after
raveling). -/
def win_sum (v : ℕ → ℕ → ℚ) : ℚ :=
  v 0 0 + v 0 1 + v 0 2 + v 1 0 + v 1 1 + v 1 2 + v 2 0 + v 2 1 + v 2 2

/-- Number of positive 3x3-window entries (`np.sum(Hnew_ind > 0)`). -/
def win_count (v : ℕ → ℕ → ℚ) : ℕ :=
  (if 0 < v 0 0 then 1 else 0) + (if 0 < v 0 1 then 1 else 0) +
  (if 0 < v 0 2 then 1 else 0) + (if 0 < v 1 0 then 1 else 0) +
  (if 0 < v 1 1 then 1 else 0) + (if 0 < v 1 2 then 1 else 0) +
  (if 0 < v 2 0 then 1 else 0) + (if 0 < v 2 1 then 1 else 0) +
  (if 0 < v 2 2 then 1 else 0)

/-- One cell update of a `_smooth_free_surface` pass (lines 613-637).
The window covers pad rows `c.1 .. c.1+2` and pad columns `c.2 .. c.2+2`.
`Hnew_ind[1, 1] = 0` writes through the numpy view into the shared padded
array, so the zeroed center persists in `P` for all later cells and all
later passes; the subsequent `ravel()` copies the (non-contiguous)
window, so the `cell_type == -2` masking is local to the window copy. -/
def smooth_cell (ct pct : IFld) (Csmooth : ℚ)
    (st : SmoothState) (c : ℕ × ℕ) : SmoothState :=
  if ct c.1 c.2 > -2 then
    let P1 : Fld := fun x y =>
      if x = c.1 + 1 ∧ y = c.2 + 1 then 0 else st.P x y
    let v : ℕ → ℕ → ℚ := fun a b =>
      if pct (c.1 + a) (c.2 + b) = -2 then 0 else P1 (c.1 + a) (c.2 + b)
    let T1 : Fld :=
      if 0 < win_count v then
        fun x y =>
          if x = c.1 ∧ y = c.2 then
            Csmooth * st.T c.1 c.2 +
              (1 - Csmooth) * win_sum v / (win_count v : ℚ)
          else st.T x y
      else st.T
    ⟨P1, T1⟩
  else st

/-- One full pass of `_smooth_free_surface` over the grid in raster
order. -/
def smooth_pass (L W : ℕ) (ct pct : IFld) (Csmooth : ℚ)
    (st : SmoothState) : SmoothState :=
  (raster_cells L W).foldl (smooth_cell ct pct Csmooth) st

/-- `_smooth_free_surface` (water_tools.py lines 604-640): `Nsmooth`
passes starting from `Htemp = Hnew` and the shared pad `Hnew_pad`; the
returned `Hsmth` is the final `Htemp`. -/
def smooth_free_surface (Hnew Hnew_pad : Fld) (cell_type pad_cell_type :
    IFld) (Nsmooth : ℕ) (Csmooth : ℚ) (L W : ℕ) : Fld :=
  ((smooth_pass L W cell_type pad_cell_type Csmooth)^[Nsmooth]
    ⟨Hnew_pad, Hnew⟩).T

/-- Raster order: cell `c` is processed before or at cell `(i, j)`. -/
def raster_le (c : ℕ × ℕ) (i j : ℕ) : Prop :=
  c.1 < i ∨ (c.1 = i ∧ c.2 ≤ j)

instance raster_le.decidable (c : ℕ × ℕ) (i j : ℕ) :
    Decidable (raster_le c i j) := by
  unfold raster_le
  infer_instance

/-- Pad entry `(x, y)` has been zeroed through the shared view by the
time cell `(i, j)` computes its window in the first pass: it is the
center of a non-boundary cell processed before `(i, j)`, or of `(i, j)`
itself. -/
def zeroed_by (ct : IFld) (L W i j x y : ℕ) : Prop :=
  1 ≤ x ∧ x ≤ L ∧ 1 ≤ y ∧ y ≤ W ∧
    ct (x - 1) (y - 1) > -2 ∧ raster_le (x - 1, y - 1) i j

instance zeroed_by.decidable (ct : IFld) (L W i j x y : ℕ) :
    Decidable (zeroed_by ct L W i j x y) := by
  unfold zeroed_by
  infer_instance

/-- The window values cell `(i, j)` actually averages in the first
smoothing pass: the padded surface with deep-wall entries masked and the
centers of already-processed cells (and its own center) zeroed through
the shared view. -/
def live_val (ct pct : IFld) (L W i j : ℕ) (P0 : Fld) : ℕ → ℕ → ℚ :=
  fun a b =>
    if pct (i + a) (j + b) = -2 then 0
    else if zeroed_by ct L W i j (i + a) (j + b) then 0
    else P0 (i + a) (j + b)

/-- Second definition following the claim's words (not the code): the
unweighted mean over the eight padded neighbors of a cell, excluding
deep-wall (`cell_type == -2`) neighbors and zero-valued neighbors. -/
def claim_qualifying_mean (pct : IFld) (P0 : Fld) (i j : ℕ) : ℚ :=
  let v : ℕ → ℕ → ℚ := fun a b =>
    if (a = 1 ∧ b = 1) ∨ pct (i + a) (j + b) = -2 then 0
    else P0 (i + a) (j + b)
  win_sum v / (win_count v : ℚ)

/-- Raster-order prefix of the cells strictly before `(i, j)`. -/
def raster_before (W i j : ℕ) : List (ℕ × ℕ) :=
  raster_cells i W ++ (List.range j).map fun y => (i, y)

/-- Raster-order suffix of the cells strictly after `(i, j)`. -/
def raster_after (L W i j : ℕ) : List (ℕ × ℕ) :=
  ((List.range (W - j - 1)).map fun y => (i, j + 1 + y)) ++
    ((List.range (L - i - 1)).flatMap fun x =>
      (List.range W).map fun y => (i + 1 + x, y))

/-- The concrete surface for the C4 counterexample. -/
def ex4H : Fld := fun i j =>
  if i = 0 ∧ j = 0 then 1
  else if i = 0 ∧ j = 1 then 2
  else if i = 1 ∧ j = 0 then 3
  else 4

/-- All-normal cell types for the C4 counterexample. -/
def ex4ct : IFld := fun _ _ => 0

/-- The smoothed surface `Hsmth` computed inside `finalize_free_surface`
(lines 233-246): bed elevation plus depth, floored at sea level, then
overridden at parcel-visited cells by the accumulated mean `sum/visits`,
edge-padded and smoothed. -/
def smoothed_surface (s : DeltaModel) : Fld :=
  let Hnew : Fld := fun i j =>
    if s.sfc_visit i j > 0 then s.sfc_sum i j / s.sfc_visit i j
    else if s.eta i j + s.depth i j < s.H_SL then s.H_SL
    else s.eta i j + s.depth i j
  smooth_free_surface Hnew (pad_edge s.L s.W Hnew) s.cell_type
    (pad_edge_int s.L s.W s.cell_type) s.Nsmooth s.Csmooth s.L s.W

/-- `water_tools.finalize_free_surface` (lines 222-252): compute the
smoothed surface, relax the stage toward it (the relaxation assignment is
guarded by `self._time_iter > 0`), then apply the flooding correction.
`self.pad_cell_type` was set by `init_water_iteration` to the
edge-replicated pad of `cell_type`, which is immutable within the
iteration. -/
def finalize_free_surface (s : DeltaModel) : DeltaModel :=
  let Hsmth := smoothed_surface s
  let s1 :=
    if s.time_iter > 0 then
      { s with stage := fun i j =>
          (1 - s.omega_sfc) * s.stage i j + s.omega_sfc * Hsmth i j }
    else s
  flooding_correction s1

/-- Concrete model for the C2 counterexample: an all-wet 2x2 grid whose
smoothed surface (2 everywhere) differs from the stage (0 everywhere),
with `_time_iter = 0`. -/
def ex2 : DeltaModel :=
  { exBase with depth := fun _ _ => 2, H_SL := 1, Csmooth := 1 }

/-- Whether the positive entries of a recorded walk contain a duplicate:
`len(_walk) != len(set(_walk))` over `_walk = walk[walk > 0]`
(lines 476-478). -/
def has_repeat_ind (walk : List ℤ) : Prop :=
  (walk.filter fun v => decide (0 < v)).length ≠
    (walk.filter fun v => decide (0 < v)).dedup.length

instance has_repeat_ind.decidable (walk : List ℤ) :
    Decidable (has_repeat_ind walk) := by
  unfold has_repeat_ind
  infer_instance

/-- The loop-deflection target of `_check_for_loops` (lines 482-494):
unravel the new index, project away from the inlet point along the
vector from the domain centerline by about five cells, then clamp
strictly inside the interior.  `sqrt` abstracts the float square root;
`round` models `np.round` (numpy's half-to-even differs only on exact
ties, on which no claim depends). -/
def deflect_coords (sqrt : ℚ → ℚ) (new_ind : ℤ) (L W L0 : ℕ)
    (CTR : ℤ) : ℤ × ℤ :=
  let px := (custom_unravel new_ind W).1
  let py := (custom_unravel new_ind W).2
  let Fx : ℤ := px - 1
  let Fy : ℤ := py - CTR
  let Fw : ℚ := sqrt ((Fx : ℚ) ^ 2 + (Fy : ℚ) ^ 2)
  let px1 := if Fw ≠ 0 then px + round ((Fx : ℚ) / Fw * 5) else px
  let py1 := if Fw ≠ 0 then py + round ((Fy : ℚ) / Fw * 5) else py
  (min ((L : ℤ) - 2) (max px1 (L0 : ℤ)), min ((W : ℤ) - 2) (max 1 py1))

/-- `_check_for_loops` (water_tools.py lines 458-499): for every parcel
`p < nparcels` whose new index is positive and whose recorded walk
(row `p`, passed as a list) revisits a cell, and only once the round
number exceeds the inlet length `L0`, bump the loop counter, deflect the
new index and mark the free-surface flag; all other parcels pass through
unchanged.  Returns `(new_indices, looped, free_surf_flag)`. -/
def check_for_loops (sqrt : ℚ → ℚ) (walks : ℕ → List ℤ)
    (new_indices : ℕ → ℤ) (_step L0 : ℕ) (looped : ℕ → ℤ)
    (L W : ℕ) (CTR : ℤ) (free_surf_flag : ℕ → ℤ) (nparcels : ℕ) :
    (ℕ → ℤ) × (ℕ → ℤ) × (ℕ → ℤ) :=
  let trigger : ℕ → Prop := fun p =>
    _step > L0 ∧ new_indices p > 0 ∧ has_repeat_ind (walks p)
  (fun p => if p < nparcels ∧ trigger p then
      custom_ravel (deflect_coords sqrt (new_indices p) L W L0 CTR) W
    else new_indices p,
   fun p => if p < nparcels ∧ trigger p then looped p + 1 else looped p,
   fun p => if p < nparcels ∧ trigger p then -1 else free_surf_flag p)

/-- Modelled from the spec: the fixed D8 direction-to-offset tables
`iwalk_flat` and `jwalk_flat` (`shared_tools`, not under `src/`): the
spec lists a fixed table of 8 compass offsets plus stay, in raster
order; `iwalk` holds column offsets, `jwalk` row offsets, direction 4
being "stay" with offset `(0, 0)`. -/
def iwalk_flat : ℕ → ℤ := fun q => ((q % 3 : ℕ) : ℤ) - 1

/-- Modelled from the spec: row-offset table, see `iwalk_flat`. -/
def jwalk_flat : ℕ → ℤ := fun q => ((q / 3 : ℕ) : ℤ) - 1

/-- `_choose_next_direction` (lines 395-434), per parcel: a parcel with
index 0 is skipped and assigned the stay direction 4; an active parcel
draws from its cell's weight row.  `shared_tools.random_pick` is not
under `src/` and is modelled from the spec as an abstract discrete draw
`pick p w` (one independent draw per active parcel). -/
def choose_next_direction (pick : ℕ → (ℕ → ℚ) → ℕ)
    (water_weights_flat : ℤ → ℕ → ℚ) (inds : ℕ → ℤ) : ℕ → ℕ := fun p =>
  if inds p ≠ 0 then pick p (water_weights_flat (inds p)) else 4

/-- `_calculate_new_ind` (lines 437-455), per parcel: a non-stay
direction moves the unravelled position by the offset table and ravels
back; the stay direction `q = 4` yields index 0. -/
def calculate_new_ind (iwalk jwalk : ℕ → ℤ) (W : ℕ) (p : ℤ) (q : ℕ) :
    ℤ :=
  if q ≠ 4 then
    custom_ravel ((custom_unravel p W).1 + jwalk q,
      (custom_unravel p W).2 + iwalk q) W
  else 0

/-- Per-parcel backward-walk state of `_accumulate_free_surface_walks`:
the working surface `Hnew`, the in-ocean flag, the carried increment
`dH`, and the two accumulators. -/
structure WalkState where
  H : Fld
  in_ocean : Bool
  dH : ℚ
  visit : Fld
  sum : Fld

/-- The unravelled positive path coordinates `(xs, ys)` of one parcel
(lines 554-558). -/
def walk_coords (W : ℕ) (walk : List ℤ) : List (ℕ × ℕ) :=
  (walk.filter fun v => decide (0 < v)).map fun v =>
    ((custom_unravel v W).1.toNat, (custom_unravel v W).2.toNat)

/-- The shoreline / in-delta update of the in-ocean flag and of the
carried surface increment `dH` (lines 575-590), applied only when the
parcel moved between cells `c` (upstream) and `cp` (downstream). -/
def walk_flag_dH (uw ux uy depth : Fld) (dx u0 h0 S0 : ℚ)
    (c cp : ℕ × ℕ) (st : WalkState) : WalkState :=
  if c ≠ cp then
    if st.in_ocean then
      if uw c.1 c.2 > u0 * 0.5 ∨ depth c.1 c.2 < 0.1 * h0 then
        { st with in_ocean := false }
      else st
    else
      if uw c.1 c.2 = 0 then { st with dH := 0 }
      else { st with dH := S0 * (ux c.1 c.2 * ((cp.1 : ℚ) - (c.1 : ℚ)) *
          dx + uy c.1 c.2 * ((cp.2 : ℚ) - (c.2 : ℚ)) * dx) / uw c.1 c.2 }
  else st

/-- One iteration of the backward loop
`for it in range(len(xs) - 2, -1, -1)` (lines 569-599): update the flag
and `dH`, set the cell's surface to the downstream cell's surface plus
`dH`, then bump the visit count and add the new surface value to the
sum. -/
def walk_step (uw ux uy depth : Fld) (dx u0 h0 S0 : ℚ)
    (coords : List (ℕ × ℕ)) (st : WalkState) (it : ℕ) : WalkState :=
  let c := coords.getD it (0, 0)
  let cp := coords.getD (it + 1) (0, 0)
  let st1 := walk_flag_dH uw ux uy depth dx u0 h0 S0 c cp st
  let Hval := st1.H cp.1 cp.2 + st1.dH
  { st1 with
    H := fun x y => if x = c.1 ∧ y = c.2 then Hval else st1.H x y
    visit := fun x y => if x = c.1 ∧ y = c.2 then st1.visit x y + 1
             else st1.visit x y
    sum := fun x y => if x = c.1 ∧ y = c.2 then st1.sum x y + Hval
           else st1.sum x y }

/-- Processing of one parcel's recorded walk inside
`_accumulate_free_surface_walks` (lines 551-599): a parcel contributes
only if its last positive index lies on an ocean/edge cell
(`cell_type == -1`) and it was never loop-deflected; a qualifying walk
is traversed backward from the terminus (whose surface is pinned at sea
level).  A walk with no positive entries is skipped (the source would
fault indexing `xs[-1]` of an empty array there). -/
def process_parcel (cell_type : IFld) (uw ux uy depth : Fld)
    (dx u0 h0 H_SL S0 : ℚ) (W : ℕ) (acc : Fld × Fld) (walk : List ℤ)
    (loopedp : ℤ) : Fld × Fld :=
  let coords := walk_coords W walk
  match coords.getLast? with
  | none => acc
  | some lc =>
    if cell_type lc.1 lc.2 = -1 ∧ loopedp = 0 then
      let H0 : Fld := fun x y => if x = lc.1 ∧ y = lc.2 then H_SL else 0
      let stf := ((List.range (coords.length - 1)).reverse).foldl
        (walk_step uw ux uy depth dx u0 h0 S0 coords)
        ⟨H0, true, 0, acc.1, acc.2⟩
      (stf.visit, stf.sum)
    else acc

/-- `_accumulate_free_surface_walks` (water_tools.py lines 520-601):
fold every parcel's walk into the `(sfc_visit, sfc_sum)` accumulators,
starting from zeros. -/
def accumulate_free_surface_walks (walks : List (List ℤ))
    (looped : ℕ → ℤ) (cell_type : IFld) (uw ux uy depth : Fld)
    (dx u0 h0 H_SL S0 : ℚ) (W : ℕ) : Fld × Fld :=
  walks.enum.foldl
    (fun acc pw => process_parcel cell_type uw ux uy depth dx u0 h0 H_SL
      S0 W acc pw.2 (looped pw.1))
    (fun _ _ => 0, fun _ _ => 0)

/-- Modelled from the spec: the stochastic and float-specific inputs of
one `run_water_iteration` call, determinized as explicit functions — a
fixed random seed fixes them (spec 7: "deterministic given a fixed
random seed").  `pick t p w` is the direction drawn by active parcel `p`
in round `t` from its cell's weight row `w` (`shared_tools.random_pick`,
not under `src/`); `start p` is parcel `p`'s inlet-sampled start index
(`shared_tools.get_start_indices`); `dist q` is the D8 step distance of
direction `q` (`shared_tools.get_steps`: 1 for compass and the
irrational sqrt 2 for diagonal steps); `sqrt` is the float square root
used by `_check_for_loops`. -/
structure RngOracles where
  pick : ℕ → ℕ → (ℕ → ℚ) → ℕ
  start : ℕ → ℤ
  dist : ℕ → ℚ
  sqrt : ℚ → ℚ

/-- State carried by the `while` loop of `run_water_iteration`. -/
structure RouteState where
  qxn : Fld
  qyn : Fld
  qwn : Fld
  walk : ℕ → ℕ → ℤ
  cur : ℕ → ℤ
  looped : ℕ → ℤ
  flag : ℕ → ℤ
  step : ℕ

/-- `_update_dirQfield` (lines 502-508): for every parcel taking an
active step, add `dirstep/dist` to the flux field at the parcel's (flat)
index. -/
def update_dirQfield (W Np : ℕ) (qfield : Fld) (inds : ℕ → ℤ)
    (astep : ℕ → Bool) (dirstep : ℕ → ℤ) (dist : ℕ → ℚ) : Fld :=
  (List.range Np).foldl
    (fun f p =>
      if astep p then
        fun x y =>
          if x = (custom_unravel (inds p) W).1.toNat ∧
              y = (custom_unravel (inds p) W).2.toNat then
            f x y + (dirstep p : ℚ) / dist p
          else f x y
      else f)
    qfield

/-- `_update_absQfield` (lines 511-517). -/
def update_absQfield (W Np : ℕ) (qfield : Fld) (inds : ℕ → ℤ)
    (astep : ℕ → Bool) (Qp_water dx : ℚ) : Fld :=
  (List.range Np).foldl
    (fun f p =>
      if astep p then
        fun x y =>
          if x = (custom_unravel (inds p) W).1.toNat ∧
              y = (custom_unravel (inds p) W).2.toNat then
            f x y + Qp_water / dx / 2
          else f x y
      else f)
    qfield

/-- `water_tools.update_Q` (lines 174-196): six flux-field update
passes, at the source cells and then at the target cells. -/
def update_Q (W Np : ℕ) (qxn qyn qwn : Fld) (dist : ℕ → ℚ)
    (current_inds next_index : ℕ → ℤ) (astep : ℕ → Bool)
    (jstep istep : ℕ → ℤ) (Qp_water dx : ℚ) : Fld × Fld × Fld :=
  let qxn1 := update_dirQfield W Np qxn current_inds astep jstep dist
  let qyn1 := update_dirQfield W Np qyn current_inds astep istep dist
  let qwn1 := update_absQfield W Np qwn current_inds astep Qp_water dx
  (update_dirQfield W Np qxn1 next_index astep jstep dist,
   update_dirQfield W Np qyn1 next_index astep istep dist,
   update_absQfield W Np qwn1 next_index astep Qp_water dx)

/-- `water_tools.check_for_boundary` (lines 198-220): promote the
free-surface flag of parcels sitting on an edge cell
(`cell_type == -1`) and zero the indices of parcels whose flag reached
2.  Returns the updated `(inds, free_surf_flag)`. -/
def check_for_boundary (ct : IFld) (W : ℕ) (inds : ℕ → ℤ)
    (flag : ℕ → ℤ) : (ℕ → ℤ) × (ℕ → ℤ) :=
  let ct_at : ℕ → ℤ := fun p =>
    ct (custom_unravel (inds p) W).1.toNat
      (custom_unravel (inds p) W).2.toNat
  let flag1 : ℕ → ℤ := fun p =>
    if ct_at p = -1 ∧ flag p = 0 then 1
    else if ct_at p = -1 ∧ flag p = -1 then 2
    else flag p
  (fun p => if flag1 p = 2 then 0 else inds p, flag1)

/-- Python `sum(current_inds)` over the parcel array. -/
def parcels_sum (Np : ℕ) (cur : ℕ → ℤ) : ℤ :=
  ((List.range Np).map cur).sum

/-- One round of the `while` loop of `run_water_iteration`
(lines 59-92), entered with the already-incremented round number
`st.step`: choose directions, translate them, accumulate flux at source
and target, detect loops, settle boundary hits, record the walk column
and zero flagged parcels.  `check_size_of_indices_matrix` is a no-op on
the function-modelled walk matrix. -/
def route_round (o : RngOracles) (s : DeltaModel) (wwf : ℤ → ℕ → ℚ)
    (st : RouteState) : RouteState :=
  let dirs := choose_next_direction (o.pick st.step) wwf st.cur
  let new_inds : ℕ → ℤ := fun p =>
    calculate_new_ind iwalk_flat jwalk_flat s.W (st.cur p) (dirs p)
  let dist : ℕ → ℚ := fun p => o.dist (dirs p)
  let istep : ℕ → ℤ := fun p => iwalk_flat (dirs p)
  let jstep : ℕ → ℤ := fun p => jwalk_flat (dirs p)
  let astep : ℕ → Bool := fun p => decide (dirs p ≠ 4)
  let q3 := update_Q s.W s.Np_water st.qxn st.qyn st.qwn dist st.cur
    new_inds astep jstep istep s.Qp_water s.dx
  let loops := check_for_loops o.sqrt
    (fun p => (List.range (s.stepmax + 1)).map (st.walk p))
    new_inds st.step s.L0 st.looped s.L s.W s.CTR st.flag s.Np_water
  let bnd := check_for_boundary s.cell_type s.W loops.1 loops.2.2
  { qxn := q3.1
    qyn := q3.2.1
    qwn := q3.2.2
    walk := fun p t => if t = st.step then bnd.1 p else st.walk p t
    cur := fun p => if bnd.2 p > 0 then 0 else bnd.1 p
    looped := loops.2.1
    flag := bnd.2
    step := st.step }

/-- The `while (sum(current_inds) > 0) & (_step < stepmax)` loop of
`run_water_iteration`, incrementing the round number at loop top. -/
def route_loop (o : RngOracles) (s : DeltaModel) (wwf : ℤ → ℕ → ℚ)
    (st : RouteState) : RouteState :=
  if _h : parcels_sum s.Np_water st.cur > 0 ∧ st.step < s.stepmax then
    route_loop o s wwf
      (route_round o s wwf { st with step := st.step + 1 })
  else st
termination_by s.stepmax - st.step
decreasing_by
  have hstep : (route_round o s wwf { st with step := st.step + 1 }).step
      = st.step + 1 := rfl
  rw [hstep]
  omega

/-- `run_water_iteration` (water_tools.py lines 30-92).  The per-cell
weight array (`get_water_weight_array`, lines 148-172, whose physics
lives in `shared_tools` routines not under `src/`) is passed flattened
as `wwf` and is constant across the iteration.  Seeding `qxn`/`qwn` at
the start indices uses numpy fancy-index `+=` semantics: one increment
per distinct hit cell. -/
def run_water_iteration (o : RngOracles) (s : DeltaModel)
    (wwf : ℤ → ℕ → ℚ) : RouteState :=
  let hit : ℕ → ℕ → Prop := fun x y =>
    ∃ p ∈ List.range s.Np_water, o.start p = (x : ℤ) * s.W + y
  let st0 : RouteState :=
    { qxn := fun x y => if hit x y then s.qxn x y + 1 else s.qxn x y
      qyn := s.qyn
      qwn := fun x y => if hit x y then s.qwn x y + s.Qp_water / s.dx / 2
             else s.qwn x y
      walk := fun p t => if t = 0 then o.start p
              else s.free_surf_walk_indices p t
      cur := o.start
      looped := fun _ => 0
      flag := s.free_surf_flag
      step := 0 }
  route_loop o s wwf st0

/-- The constant-zero oracle bundle, used by the C9 witness. -/
def exO : RngOracles :=
  ⟨fun _ _ _ => 0, fun _ => 0, fun _ => 0, fun _ => 0⟩

/- ======================  theorems and proofs  ====================== -/

lemma update_flow_field_stage (sqrt : ℚ → ℚ) (s : DeltaModel) (it : ℕ) :
    (update_flow_field sqrt s it).stage = s.stage := rfl

lemma update_flow_field_depth (sqrt : ℚ → ℚ) (s : DeltaModel) (it : ℕ) :
    (update_flow_field sqrt s it).depth = s.depth := rfl

lemma update_flow_field_eta (sqrt : ℚ → ℚ) (s : DeltaModel) (it : ℕ) :
    (update_flow_field sqrt s it).eta = s.eta := rfl

lemma update_velocity_field_stage (s : DeltaModel) :
    (update_velocity_field s).stage = s.stage := rfl

lemma update_velocity_field_depth (s : DeltaModel) :
    (update_velocity_field s).depth = s.depth := rfl

lemma update_velocity_field_eta (s : DeltaModel) :
    (update_velocity_field s).eta = s.eta := rfl

/-- C1: after `finalize_water_iteration` completes, for every cell of the
grid, `depth = max(stage - elevation, 0)` and `stage ≥ H_SL`; in
particular `depth ≥ 0` at every cell.  (The subsequent
`update_flow_field` and `update_velocity_field` calls do not touch the
stage, depth or elevation fields.) -/
theorem C1_finalize_depth_stage (sqrt : ℚ → ℚ) (s : DeltaModel)
    (iteration : ℕ) (i j : ℕ) :
    (finalize_water_iteration sqrt s iteration).depth i j =
      max ((finalize_water_iteration sqrt s iteration).stage i j -
           (finalize_water_iteration sqrt s iteration).eta i j) 0 ∧
    s.H_SL ≤ (finalize_water_iteration sqrt s iteration).stage i j ∧
    0 ≤ (finalize_water_iteration sqrt s iteration).depth i j := by
  refine ⟨rfl, ?_, ?_⟩
  · show s.H_SL ≤ max (s.stage i j) s.H_SL
    exact le_max_right _ _
  · show (0 : ℚ) ≤ max (max (s.stage i j) s.H_SL - s.eta i j) 0
    exact le_max_right _ _

/-- C10: after `update_velocity_field`, every cell's velocity magnitude
`uw` satisfies `0 ≤ uw ≤ u_max` (assuming the nonnegative thresholds the
program runs with), and a masked cell (`depth ≤ dry_depth` or `qw ≤ 0`)
gets `uw = ux = uy = 0`. -/
theorem C10_velocity_bounded (s : DeltaModel)
    (hd : 0 ≤ s.dry_depth) (hu : 0 ≤ s.u_max) (i j : ℕ) :
    0 ≤ (update_velocity_field s).uw i j ∧
    (update_velocity_field s).uw i j ≤ s.u_max ∧
    (¬ (s.depth i j > s.dry_depth ∧ s.qw i j > 0) →
      (update_velocity_field s).uw i j = 0 ∧
      (update_velocity_field s).ux i j = 0 ∧
      (update_velocity_field s).uy i j = 0) := by
  have huw : (update_velocity_field s).uw i j =
      (if s.depth i j > s.dry_depth ∧ s.qw i j > 0 then
        min s.u_max (s.qw i j / s.depth i j) else 0) := rfl
  have hux : (update_velocity_field s).ux i j =
      (if s.depth i j > s.dry_depth ∧ s.qw i j > 0 then
        (if s.depth i j > s.dry_depth ∧ s.qw i j > 0 then
          min s.u_max (s.qw i j / s.depth i j) else 0) * s.qx i j / s.qw i j
       else 0) := rfl
  have huy : (update_velocity_field s).uy i j =
      (if s.depth i j > s.dry_depth ∧ s.qw i j > 0 then
        (if s.depth i j > s.dry_depth ∧ s.qw i j > 0 then
          min s.u_max (s.qw i j / s.depth i j) else 0) * s.qy i j / s.qw i j
       else 0) := rfl
  rw [huw, hux, huy]
  by_cases h : s.depth i j > s.dry_depth ∧ s.qw i j > 0
  · have hdep : 0 < s.depth i j := lt_of_le_of_lt hd h.1
    have hdiv : 0 < s.qw i j / s.depth i j := div_pos h.2 hdep
    rw [if_pos h]
    exact ⟨le_min hu hdiv.le, min_le_left _ _, fun hc => absurd h hc⟩
  · rw [if_neg h, if_neg h, if_neg h]
    exact ⟨le_refl 0, hu, fun _ => ⟨rfl, rfl, rfl⟩⟩

/-- Witness for C10 at a concrete model. -/
theorem C10_velocity_bounded_witness :
    0 ≤ exBase.dry_depth ∧ 0 ≤ exBase.u_max ∧
    (0 ≤ (update_velocity_field exBase).uw 0 0 ∧
     (update_velocity_field exBase).uw 0 0 ≤ exBase.u_max ∧
     (¬ (exBase.depth 0 0 > exBase.dry_depth ∧ exBase.qw 0 0 > 0) →
       (update_velocity_field exBase).uw 0 0 = 0 ∧
       (update_velocity_field exBase).ux 0 0 = 0 ∧
       (update_velocity_field exBase).uy 0 0 = 0)) :=
  ⟨by decide, by decide,
   C10_velocity_bounded exBase (by decide) (by decide) 0 0⟩

lemma mem_raster_cells (L W i j : ℕ) :
    (i, j) ∈ raster_cells L W ↔ i < L ∧ j < W := by
  simp only [raster_cells, List.mem_flatMap, List.mem_map, List.mem_range,
    Prod.mk.injEq]
  constructor
  · rintro ⟨a, ha, b, hb, hai, hbj⟩
    exact ⟨hai ▸ ha, hbj ▸ hb⟩
  · rintro ⟨hi, hj⟩
    exact ⟨i, hi, j, hj, rfl, rfl⟩

/-- When every write of a guarded fold stores a value independent of the
accumulator, the final value at a cell is the stored value exactly when
some processed cell wrote there. -/
lemma foldl_write_char (g : ℕ × ℕ → Prop) [DecidablePred g]
    (v : ℕ × ℕ → ℚ) (cs : List (ℕ × ℕ)) (st : Fld) (i j : ℕ) :
    (cs.foldl (fun t c => if g c then
        (fun x y => if x = c.1 ∧ y = c.2 then v c else t x y) else t) st)
      i j =
      if (i, j) ∈ cs ∧ g (i, j) then v (i, j) else st i j := by
  induction cs generalizing st with
  | nil => simp
  | cons a as ih =>
    rw [List.foldl_cons, ih]
    by_cases hmem : (i, j) ∈ as ∧ g (i, j)
    · rw [if_pos hmem, if_pos ⟨List.mem_cons_of_mem _ hmem.1, hmem.2⟩]
    · rw [if_neg hmem]
      by_cases ha : g a
      · rw [if_pos ha]
        by_cases hc : i = a.1 ∧ j = a.2
        · have haij : a = (i, j) := by
            obtain ⟨h1, h2⟩ := hc
            exact Prod.ext h1.symm h2.symm
          rw [if_pos hc, if_pos ⟨by rw [haij]; exact List.mem_cons_self _ _,
            haij ▸ ha⟩, haij]
        · rw [if_neg hc, if_neg ?_]
          rintro ⟨hmem2, hg⟩
          rcases List.mem_cons.mp hmem2 with h | h
          · exact hc ⟨congrArg Prod.fst h, congrArg Prod.snd h⟩
          · exact hmem ⟨h, hg⟩
      · rw [if_neg ha, if_neg ?_]
        rintro ⟨hmem2, hg⟩
        rcases List.mem_cons.mp hmem2 with h | h
        · exact ha (h ▸ hg)
        · exact hmem ⟨h, hg⟩

lemma flooding_correction_stage_char (s : DeltaModel) (i j : ℕ) :
    (flooding_correction s).stage i j =
      if (i, j) ∈ raster_cells s.L s.W ∧
          ((if s.depth i j > s.dry_depth then 0
            else nh_sum (get_wet_mask_nh s) i j) > 0 ∧
           nh_gt (stage_nh s) i j (s.eta i j)) then
        nh_max (stage_nh s) i j
      else s.stage i j := by
  show (List.foldl _ s.stage (raster_cells s.L s.W)) i j = _
  exact foldl_write_char
    (fun c => (if s.depth c.1 c.2 > s.dry_depth then 0
      else nh_sum (get_wet_mask_nh s) c.1 c.2) > 0 ∧
      nh_gt (stage_nh s) c.1 c.2 (s.eta c.1 c.2))
    (fun c => nh_max (stage_nh s) c.1 c.2) _ s.stage i j

/-- C3 (amended): `flooding_correction` modifies only cells that are dry
(`depth ≤ dry_depth`) and have at least one wet neighbor (a positive
entry of the edge-replicated wet-neighbor mask).  When such a cell is
updated its stage becomes the maximum entry of the wet-masked neighbor
stage vector `stage_nh` (dry or out-of-grid neighbors contributing 0),
and the update fires exactly when some entry of that vector exceeds the
cell's bed elevation.  The update can lower the stage (see the
counterexample), so the original "never lowers" part of the claim fails. -/
theorem C3_flooding_correction_amended (s : DeltaModel) (i j : ℕ)
    (hi : i < s.L) (hj : j < s.W) :
    ((flooding_correction s).stage i j ≠ s.stage i j →
       ¬ s.depth i j > s.dry_depth ∧ 0 < nh_sum (get_wet_mask_nh s) i j) ∧
    (¬ s.depth i j > s.dry_depth → 0 < nh_sum (get_wet_mask_nh s) i j →
       nh_gt (stage_nh s) i j (s.eta i j) →
       (flooding_correction s).stage i j = nh_max (stage_nh s) i j) ∧
    (¬ s.depth i j > s.dry_depth → 0 < nh_sum (get_wet_mask_nh s) i j →
       ¬ nh_gt (stage_nh s) i j (s.eta i j) →
       (flooding_correction s).stage i j = s.stage i j) := by
  rw [flooding_correction_stage_char] at *
  refine ⟨?_, ?_, ?_⟩
  · intro hne
    by_cases hcond : (i, j) ∈ raster_cells s.L s.W ∧
        ((if s.depth i j > s.dry_depth then 0
          else nh_sum (get_wet_mask_nh s) i j) > 0 ∧
         nh_gt (stage_nh s) i j (s.eta i j))
    · obtain ⟨-, hsum, -⟩ := hcond
      by_cases hwet : s.depth i j > s.dry_depth
      · rw [if_pos hwet] at hsum
        exact absurd hsum (lt_irrefl 0)
      · exact ⟨hwet, by rwa [if_neg hwet] at hsum⟩
    · rw [if_neg hcond] at hne
      exact absurd rfl hne
  · intro hdry hsum hgt
    rw [if_pos ⟨(mem_raster_cells _ _ _ _).mpr ⟨hi, hj⟩,
      by rw [if_neg hdry]; exact hsum, hgt⟩]
  · intro _ _ hngt
    rw [if_neg ?_]
    rintro ⟨-, -, hgt⟩
    exact hngt hgt

lemma raster_cells_two_two :
    raster_cells 2 2 = [(0, 0), (0, 1), (1, 0), (1, 1)] := rfl

set_option maxHeartbeats 2000000 in
/-- C3 counterexample: `flooding_correction` lowers the stage of the dry
cell `(0,0)` from 10 to 5, refuting "never lowers any cell's stage". -/
theorem C3_flooding_correction_counterexample :
    (flooding_correction ex3).stage 0 0 < ex3.stage 0 0 := by
  rw [flooding_correction_stage_char, if_pos ?_]
  · norm_num [nh_max, stage_nh, get_wet_mask_nh, build_weight_array,
      build_weight_base, fix_col, fix_row, ex3, exBase]
  · refine ⟨(mem_raster_cells _ _ _ _).mpr (by norm_num [ex3, exBase]),
      ?_, ?_⟩
    · norm_num [nh_sum, get_wet_mask_nh, build_weight_array,
        build_weight_base, fix_col, fix_row, ex3, exBase]
    · norm_num [nh_gt, stage_nh, get_wet_mask_nh, build_weight_array,
        build_weight_base, fix_col, fix_row, ex3, exBase]

/-- Witness for the amended C3 theorem at the concrete model `ex3`. -/
theorem C3_flooding_correction_amended_witness :
    (0 : ℕ) < ex3.L ∧ (0 : ℕ) < ex3.W ∧
    (((flooding_correction ex3).stage 0 0 ≠ ex3.stage 0 0 →
       ¬ ex3.depth 0 0 > ex3.dry_depth ∧
         0 < nh_sum (get_wet_mask_nh ex3) 0 0) ∧
     (¬ ex3.depth 0 0 > ex3.dry_depth →
       0 < nh_sum (get_wet_mask_nh ex3) 0 0 →
       nh_gt (stage_nh ex3) 0 0 (ex3.eta 0 0) →
       (flooding_correction ex3).stage 0 0 = nh_max (stage_nh ex3) 0 0) ∧
     (¬ ex3.depth 0 0 > ex3.dry_depth →
       0 < nh_sum (get_wet_mask_nh ex3) 0 0 →
       ¬ nh_gt (stage_nh ex3) 0 0 (ex3.eta 0 0) →
       (flooding_correction ex3).stage 0 0 = ex3.stage 0 0)) :=
  ⟨by decide, by decide,
   C3_flooding_correction_amended ex3 0 0 (by decide) (by decide)⟩

lemma fold_smooth_P (ct pct : IFld) (Cs : ℚ) (cs : List (ℕ × ℕ))
    (st : SmoothState) (x y : ℕ) :
    ((cs.foldl (smooth_cell ct pct Cs) st).P) x y =
      if ∃ c ∈ cs, ct c.1 c.2 > -2 ∧ x = c.1 + 1 ∧ y = c.2 + 1 then 0
      else st.P x y := by
  induction cs generalizing st with
  | nil => simp
  | cons a as ih =>
    rw [List.foldl_cons, ih]
    by_cases ha : ct a.1 a.2 > -2
    · have hP : ∀ u w, (smooth_cell ct pct Cs st a).P u w =
          if u = a.1 + 1 ∧ w = a.2 + 1 then 0 else st.P u w := by
        intro u w
        simp only [smooth_cell, if_pos ha]
      by_cases hex : ∃ c ∈ as, ct c.1 c.2 > -2 ∧ x = c.1 + 1 ∧ y = c.2 + 1
      · rw [if_pos hex, if_pos ?_]
        obtain ⟨c, hc, h⟩ := hex
        exact ⟨c, List.mem_cons_of_mem _ hc, h⟩
      · rw [if_neg hex, hP]
        by_cases hcen : x = a.1 + 1 ∧ y = a.2 + 1
        · rw [if_pos hcen,
            if_pos ⟨a, List.mem_cons_self _ _, ha, hcen.1, hcen.2⟩]
        · rw [if_neg hcen, if_neg ?_]
          rintro ⟨c, hc, hcct, hx, hy⟩
          rcases List.mem_cons.mp hc with h | h
          · exact hcen ⟨h ▸ hx, h ▸ hy⟩
          · exact hex ⟨c, h, hcct, hx, hy⟩
    · have hP : (smooth_cell ct pct Cs st a) = st := by
        simp only [smooth_cell, if_neg ha]
      rw [hP]
      by_cases hex : ∃ c ∈ as, ct c.1 c.2 > -2 ∧ x = c.1 + 1 ∧ y = c.2 + 1
      · rw [if_pos hex, if_pos ?_]
        obtain ⟨c, hc, h⟩ := hex
        exact ⟨c, List.mem_cons_of_mem _ hc, h⟩
      · rw [if_neg hex, if_neg ?_]
        rintro ⟨c, hc, hcct, hx, hy⟩
        rcases List.mem_cons.mp hc with h | h
        · exact ha (h ▸ hcct)
        · exact hex ⟨c, h, hcct, hx, hy⟩

lemma smooth_cell_T_other (ct pct : IFld) (Cs : ℚ) (st : SmoothState)
    (a : ℕ × ℕ) (i j : ℕ) (hne : ¬(i = a.1 ∧ j = a.2)) :
    (smooth_cell ct pct Cs st a).T i j = st.T i j := by
  unfold smooth_cell
  by_cases ha : ct a.1 a.2 > -2
  · rw [if_pos ha]
    simp only
    split
    · exact if_neg hne
    · rfl
  · rw [if_neg ha]

lemma fold_smooth_T_frame (ct pct : IFld) (Cs : ℚ) (cs : List (ℕ × ℕ))
    (st : SmoothState) (i j : ℕ) (h : (i, j) ∉ cs) :
    ((cs.foldl (smooth_cell ct pct Cs) st).T) i j = st.T i j := by
  induction cs generalizing st with
  | nil => rfl
  | cons a as ih =>
    rw [List.foldl_cons,
      ih _ (fun hmem => h (List.mem_cons_of_mem _ hmem))]
    refine smooth_cell_T_other ct pct Cs st a i j ?_
    rintro ⟨h1, h2⟩
    exact h (by
      rw [List.mem_cons]
      left
      exact Prod.ext h1 h2)

lemma raster_cells_split (L W i j : ℕ) (hi : i < L) (hj : j < W) :
    raster_cells L W =
      raster_before W i j ++ (i, j) :: raster_after L W i j := by
  have h1 : List.range L =
      (List.range i ++ [i]) ++ (List.range (L - i - 1)).map ((i + 1) + ·) := by
    conv_lhs => rw [show L = (i + 1) + (L - i - 1) by omega]
    rw [List.range_add, List.range_succ]
  have hrow : ((List.range W).map fun y => (i, y)) =
      ((List.range j).map fun y => (i, y)) ++ (i, j) ::
        ((List.range (W - j - 1)).map fun y => (i, j + 1 + y)) := by
    conv_lhs => rw [show W = (j + 1) + (W - j - 1) by omega]
    rw [List.range_add, List.range_succ, List.map_append, List.map_append,
      List.map_map]
    simp only [List.map_cons, List.map_nil, Function.comp_def,
      List.append_assoc, List.singleton_append, List.nil_append]
  show (List.range L).flatMap _ = _
  rw [h1, List.flatMap_append, List.flatMap_append, List.flatMap_map]
  have h3 : (([i] : List ℕ).flatMap fun x =>
      (List.range W).map fun y => (x, y)) =
      (List.range W).map fun y => (i, y) := by simp
  rw [h3, hrow]
  unfold raster_before raster_after raster_cells
  simp only [List.append_assoc, List.cons_append, List.nil_append]

lemma mem_raster_before (W i j : ℕ) (a b : ℕ) :
    (a, b) ∈ raster_before W i j ↔
      (a < i ∧ b < W) ∨ (a = i ∧ b < j) := by
  simp only [raster_before, List.mem_append, mem_raster_cells,
    List.mem_map, List.mem_range, Prod.mk.injEq]
  constructor
  · rintro (h | ⟨y, hy, h1, h2⟩)
    · exact Or.inl h
    · exact Or.inr ⟨h1.symm, h2 ▸ hy⟩
  · rintro (h | ⟨h1, h2⟩)
    · exact Or.inl h
    · exact Or.inr ⟨b, h2, h1.symm, rfl⟩

lemma not_mem_raster_before_self (W i j : ℕ) :
    (i, j) ∉ raster_before W i j := by
  rw [mem_raster_before]
  omega

lemma not_mem_raster_after_self (L W i j : ℕ) :
    (i, j) ∉ raster_after L W i j := by
  simp only [raster_after, List.mem_append, List.mem_map,
    List.mem_flatMap, List.mem_range, Prod.mk.injEq]
  rintro (⟨y, -, -, h⟩ | ⟨x, -, y, -, h, -⟩) <;> omega

lemma zeroed_by_iff (ct : IFld) (L W i j x y : ℕ)
    (hi : i < L) (hj : j < W) (hct : ct i j > -2) :
    zeroed_by ct L W i j x y ↔
      ((x = i + 1 ∧ y = j + 1) ∨
        ∃ c ∈ raster_before W i j,
          ct c.1 c.2 > -2 ∧ x = c.1 + 1 ∧ y = c.2 + 1) := by
  unfold zeroed_by raster_le
  constructor
  · rintro ⟨hx1, hxL, hy1, hyW, hc, hr | ⟨hrx, hry⟩⟩
    · refine Or.inr ⟨(x - 1, y - 1),
        (mem_raster_before W i j _ _).mpr (Or.inl ⟨hr, by omega⟩),
        hc, by omega, by omega⟩
    · by_cases hyj : y - 1 = j
      · exact Or.inl ⟨by omega, by omega⟩
      · refine Or.inr ⟨(x - 1, y - 1),
          (mem_raster_before W i j _ _).mpr (Or.inr ⟨hrx, by omega⟩),
          hc, by omega, by omega⟩
  · rintro (⟨hx, hy⟩ | ⟨c, hmem, hcct, hx, hy⟩)
    · have e1 : x - 1 = i := by omega
      have e2 : y - 1 = j := by omega
      rw [e1, e2]
      exact ⟨by omega, by omega, by omega, by omega, hct,
        Or.inr ⟨rfl, le_refl j⟩⟩
    · rcases (mem_raster_before W i j c.1 c.2).mp
        (by rwa [show ((c.1, c.2) : ℕ × ℕ) = c from rfl]) with
        ⟨h1, h2⟩ | ⟨h1, h2⟩
      · have e1 : x - 1 = c.1 := by omega
        have e2 : y - 1 = c.2 := by omega
        rw [e1, e2]
        exact ⟨by omega, by omega, by omega, by omega, hcct, Or.inl h1⟩
      · have e1 : x - 1 = c.1 := by omega
        have e2 : y - 1 = c.2 := by omega
        rw [e1, e2]
        exact ⟨by omega, by omega, by omega, by omega, hcct,
          Or.inr ⟨h1, by omega⟩⟩

lemma smooth_pass_value (L W : ℕ) (ct pct : IFld) (Cs : ℚ) (P0 T0 : Fld)
    (i j : ℕ) (hi : i < L) (hj : j < W) (hct : ct i j > -2) :
    (smooth_pass L W ct pct Cs ⟨P0, T0⟩).T i j =
      if 0 < win_count (live_val ct pct L W i j P0) then
        Cs * T0 i j + (1 - Cs) * win_sum (live_val ct pct L W i j P0) /
          (win_count (live_val ct pct L W i j P0) : ℚ)
      else T0 i j := by
  unfold smooth_pass
  rw [raster_cells_split L W i j hi hj, List.foldl_append, List.foldl_cons,
    fold_smooth_T_frame ct pct Cs _ _ i j (not_mem_raster_after_self L W i j)]
  have hst1T : ((raster_before W i j).foldl (smooth_cell ct pct Cs)
      ⟨P0, T0⟩).T i j = T0 i j :=
    fold_smooth_T_frame ct pct Cs _ _ i j (not_mem_raster_before_self W i j)
  have hvlive : (fun a b =>
      if pct (i + a) (j + b) = -2 then 0
      else if i + a = i + 1 ∧ j + b = j + 1 then 0
      else ((raster_before W i j).foldl (smooth_cell ct pct Cs)
        ⟨P0, T0⟩).P (i + a) (j + b)) = live_val ct pct L W i j P0 := by
    funext a b
    rw [fold_smooth_P]
    unfold live_val
    by_cases hm : pct (i + a) (j + b) = -2
    · rw [if_pos hm, if_pos hm]
    · rw [if_neg hm, if_neg hm]
      by_cases hz : zeroed_by ct L W i j (i + a) (j + b)
      · rw [if_pos hz]
        rcases (zeroed_by_iff ct L W i j _ _ hi hj hct).mp hz with
          hcen | hex
        · rw [if_pos hcen]
        · by_cases hcen : i + a = i + 1 ∧ j + b = j + 1
          · rw [if_pos hcen]
          · rw [if_neg hcen, if_pos hex]
      · have hcen : ¬(i + a = i + 1 ∧ j + b = j + 1) := fun hcen =>
          hz ((zeroed_by_iff ct L W i j _ _ hi hj hct).mpr (Or.inl hcen))
        have hex : ¬∃ c ∈ raster_before W i j,
            ct c.1 c.2 > -2 ∧ i + a = c.1 + 1 ∧ j + b = c.2 + 1 :=
          fun hex =>
            hz ((zeroed_by_iff ct L W i j _ _ hi hj hct).mpr (Or.inr hex))
        rw [if_neg hcen, if_neg hex, if_neg hz]
  show (smooth_cell ct pct Cs _ (i, j)).T i j = _
  rw [smooth_cell, if_pos hct]
  simp only [hvlive]
  by_cases hcount : 0 < win_count (live_val ct pct L W i j P0)
  · rw [if_pos hcount, if_pos hcount]
    show (if i = i ∧ j = j then _ else _) = _
    rw [if_pos ⟨rfl, rfl⟩, hst1T]
  · rw [if_neg hcount, if_neg hcount]
    exact hst1T

lemma smooth_cell_T_one (ct pct : IFld) (st : SmoothState) (c : ℕ × ℕ) :
    (smooth_cell ct pct 1 st c).T = st.T := by
  unfold smooth_cell
  by_cases ha : ct c.1 c.2 > -2
  · rw [if_pos ha]
    simp only
    split
    · funext x y
      split
      · rename_i hxy
        rw [hxy.1, hxy.2]
        simp only [one_mul, sub_self, zero_mul, zero_div, add_zero]
      · rfl
    · rfl
  · rw [if_neg ha]

lemma fold_smooth_T_one (ct pct : IFld) (cs : List (ℕ × ℕ))
    (st : SmoothState) :
    ((cs.foldl (smooth_cell ct pct 1) st).T) = st.T := by
  induction cs generalizing st with
  | nil => rfl
  | cons a as ih =>
    rw [List.foldl_cons, ih, smooth_cell_T_one]

lemma iterate_smooth_T_one (L W : ℕ) (ct pct : IFld) (n : ℕ)
    (st : SmoothState) :
    (((smooth_pass L W ct pct 1)^[n]) st).T = st.T := by
  induction n generalizing st with
  | zero => rfl
  | succ n ih =>
    rw [Function.iterate_succ_apply, ih]
    exact fold_smooth_T_one ct pct _ st

/-- C4 (amended): with `Csmooth = 1` the smoother is idempotent: any
number of passes returns the input surface unchanged.  With
`Csmooth = 0`, one pass makes every non-deep-wall cell the unweighted
mean of its *live* window values: the padded surface with deep-wall
entries masked and with the centers of cells already processed in raster
order zeroed through the shared numpy view (`Hnew_ind[1,1] = 0` mutates
`Hnew_pad` in place), a cell with zero positive live entries being left
unchanged.  The original claim's "mean of qualifying neighbors" fails
because of that in-place zeroing (see the counterexample). -/
theorem C4_smoother_amended (Hnew Hnew_pad : Fld) (ct pct : IFld)
    (L W n i j : ℕ) (hi : i < L) (hj : j < W) (hct : ct i j > -2) :
    smooth_free_surface Hnew Hnew_pad ct pct n 1 L W = Hnew ∧
    smooth_free_surface Hnew Hnew_pad ct pct 1 0 L W i j =
      (if 0 < win_count (live_val ct pct L W i j Hnew_pad) then
        win_sum (live_val ct pct L W i j Hnew_pad) /
          (win_count (live_val ct pct L W i j Hnew_pad) : ℚ)
      else Hnew i j) := by
  constructor
  · exact iterate_smooth_T_one L W ct pct n ⟨Hnew_pad, Hnew⟩
  · show ((smooth_pass L W ct pct 0)^[1] ⟨Hnew_pad, Hnew⟩).T i j = _
    rw [Function.iterate_one,
      smooth_pass_value L W ct pct 0 Hnew_pad Hnew i j hi hj hct]
    by_cases hcount : 0 < win_count (live_val ct pct L W i j Hnew_pad)
    · rw [if_pos hcount, if_pos hcount]
      ring
    · rw [if_neg hcount, if_neg hcount]

set_option maxHeartbeats 1000000 in
/-- C4 counterexample: on a 2x2 all-normal grid with surface values
1, 2, 3, 4 and `Csmooth = 0`, one smoothing pass gives cell `(0,1)` the
value 18/7 (its west neighborhood entries were already zeroed through the
shared pad view), not the claimed qualifying-neighbor mean 19/8. -/
theorem C4_smoother_counterexample :
    ex4ct 0 1 > -2 ∧
    smooth_free_surface ex4H (pad_edge 2 2 ex4H) ex4ct
        (pad_edge_int 2 2 ex4ct) 1 0 2 2 0 1 ≠
      claim_qualifying_mean (pad_edge_int 2 2 ex4ct)
        (pad_edge 2 2 ex4H) 0 1 := by
  refine ⟨by decide, ?_⟩
  show ((smooth_pass 2 2 ex4ct (pad_edge_int 2 2 ex4ct) 0)^[1]
    ⟨pad_edge 2 2 ex4H, ex4H⟩).T 0 1 ≠ _
  rw [Function.iterate_one,
    smooth_pass_value 2 2 ex4ct (pad_edge_int 2 2 ex4ct) 0
      (pad_edge 2 2 ex4H) ex4H 0 1 (by norm_num) (by norm_num) (by decide)]
  norm_num [live_val, zeroed_by, raster_le, win_sum, win_count,
    pad_edge, pad_edge_int, ex4H, ex4ct, claim_qualifying_mean]

/-- Witness for the amended C4 theorem at the concrete 2x2 model. -/
theorem C4_smoother_amended_witness :
    (0 : ℕ) < 2 ∧ (1 : ℕ) < 2 ∧ ex4ct 0 1 > -2 ∧
    (smooth_free_surface ex4H (pad_edge 2 2 ex4H) ex4ct
        (pad_edge_int 2 2 ex4ct) 3 1 2 2 = ex4H ∧
     smooth_free_surface ex4H (pad_edge 2 2 ex4H) ex4ct
        (pad_edge_int 2 2 ex4ct) 1 0 2 2 0 1 =
      (if 0 < win_count (live_val ex4ct (pad_edge_int 2 2 ex4ct) 2 2 0 1
          (pad_edge 2 2 ex4H)) then
        win_sum (live_val ex4ct (pad_edge_int 2 2 ex4ct) 2 2 0 1
          (pad_edge 2 2 ex4H)) /
          (win_count (live_val ex4ct (pad_edge_int 2 2 ex4ct) 2 2 0 1
            (pad_edge 2 2 ex4H)) : ℚ)
      else ex4H 0 1)) :=
  ⟨by decide, by decide, by decide,
   C4_smoother_amended ex4H (pad_edge 2 2 ex4H) ex4ct
     (pad_edge_int 2 2 ex4ct) 2 2 3 0 1 (by decide) (by decide)
     (by decide)⟩

/-- C2 (amended): on the very first iteration (`_time_iter = 0`),
`finalize_free_surface` skips the relaxation assignment entirely, so the
stage reaching the flooding correction is the old stage unchanged and
the freshly smoothed surface `Hsmth` is discarded: the call equals a bare
`flooding_correction`.  The stage does NOT become `Hsmth` (see the
counterexample), contrary to the original claim. -/
theorem C2_first_iteration_amended (s : DeltaModel)
    (h : s.time_iter = 0) :
    finalize_free_surface s = flooding_correction s := by
  simp only [finalize_free_surface, h, gt_iff_lt, lt_irrefl, if_false]

/-- C2 counterexample: with `_time_iter = 0` on an all-wet grid, the
stage after `finalize_free_surface` stays 0 while the smoothed surface is
2, so the stage does not equal `Hsmth` after the call. -/
theorem C2_first_iteration_counterexample :
    ex2.time_iter = 0 ∧
    (finalize_free_surface ex2).stage 0 0 ≠ smoothed_surface ex2 0 0 := by
  refine ⟨rfl, ?_⟩
  have hsm : smoothed_surface ex2 0 0 = 2 := by
    show (smooth_free_surface _ _ _ _ ex2.Nsmooth ex2.Csmooth
      ex2.L ex2.W) 0 0 = 2
    rw [show ex2.Csmooth = (1 : ℚ) from rfl]
    show (((smooth_pass ex2.L ex2.W _ _ 1)^[ex2.Nsmooth]) ⟨_, _⟩).T 0 0 = 2
    rw [iterate_smooth_T_one]
    norm_num [ex2, exBase]
  have hfl : (finalize_free_surface ex2).stage 0 0 = 0 := by
    simp only [finalize_free_surface]
    rw [if_neg (show ¬ ex2.time_iter > 0 by decide),
      flooding_correction_stage_char, if_neg ?_]
    · rfl
    · rintro ⟨-, hgt, -⟩
      norm_num [ex2, exBase] at hgt
  rw [hfl, hsm]
  norm_num

/-- Witness for the amended C2 theorem. -/
theorem C2_first_iteration_amended_witness :
    ex2.time_iter = 0 ∧
    finalize_free_surface ex2 = flooding_correction ex2 :=
  ⟨by decide, C2_first_iteration_amended ex2 (by decide)⟩

/-- C5: `_check_for_loops` leaves a parcel's new index, loop counter and
free-surface flag unchanged unless the round number exceeds `L0`, the
parcel's new index is positive, and the parcel's recorded path restricted
to positive entries contains a duplicate.  In particular (second
conjunct) a parcel whose positive path entries never repeat is never
loop-deflected, for any step count. -/
theorem C5_check_for_loops_frame (sqrt : ℚ → ℚ) (walks : ℕ → List ℤ)
    (new_indices : ℕ → ℤ) (_step L0 : ℕ) (looped : ℕ → ℤ) (L W : ℕ)
    (CTR : ℤ) (flag : ℕ → ℤ) (nparcels p : ℕ) :
    (¬(_step > L0 ∧ new_indices p > 0 ∧ has_repeat_ind (walks p)) →
      (check_for_loops sqrt walks new_indices _step L0 looped L W CTR
          flag nparcels).1 p = new_indices p ∧
      (check_for_loops sqrt walks new_indices _step L0 looped L W CTR
          flag nparcels).2.1 p = looped p ∧
      (check_for_loops sqrt walks new_indices _step L0 looped L W CTR
          flag nparcels).2.2 p = flag p) ∧
    (((walks p).filter fun v => decide (0 < v)).Nodup →
      (check_for_loops sqrt walks new_indices _step L0 looped L W CTR
          flag nparcels).1 p = new_indices p ∧
      (check_for_loops sqrt walks new_indices _step L0 looped L W CTR
          flag nparcels).2.1 p = looped p ∧
      (check_for_loops sqrt walks new_indices _step L0 looped L W CTR
          flag nparcels).2.2 p = flag p) := by
  have hmain : ∀ h : ¬(_step > L0 ∧ new_indices p > 0 ∧
      has_repeat_ind (walks p)),
      (check_for_loops sqrt walks new_indices _step L0 looped L W CTR
          flag nparcels).1 p = new_indices p ∧
      (check_for_loops sqrt walks new_indices _step L0 looped L W CTR
          flag nparcels).2.1 p = looped p ∧
      (check_for_loops sqrt walks new_indices _step L0 looped L W CTR
          flag nparcels).2.2 p = flag p := by
    intro h
    unfold check_for_loops
    exact ⟨if_neg fun hc => h hc.2, if_neg fun hc => h hc.2,
      if_neg fun hc => h hc.2⟩
  refine ⟨hmain, fun hnodup => hmain ?_⟩
  rintro ⟨-, -, hrep⟩
  exact hrep (by rw [List.dedup_eq_self.mpr hnodup])

/-- Witness for C5 at concrete inputs (a non-repeating walk). -/
theorem C5_check_for_loops_frame_witness :
    ((check_for_loops (fun _ => 0) (fun _ => [1, 2]) (fun _ => 7) 5 1
        (fun _ => 0) 6 5 0 (fun _ => 0) 1).1 0 = 7 ∧
     (check_for_loops (fun _ => 0) (fun _ => [1, 2]) (fun _ => 7) 5 1
        (fun _ => 0) 6 5 0 (fun _ => 0) 1).2.1 0 = 0 ∧
     (check_for_loops (fun _ => 0) (fun _ => [1, 2]) (fun _ => 7) 5 1
        (fun _ => 0) 6 5 0 (fun _ => 0) 1).2.2 0 = 0) ∧
    ((check_for_loops (fun _ => 0) (fun _ => [1, 2]) (fun _ => 7) 5 1
        (fun _ => 0) 6 5 0 (fun _ => 0) 1).1 0 = 7 ∧
     (check_for_loops (fun _ => 0) (fun _ => [1, 2]) (fun _ => 7) 5 1
        (fun _ => 0) 6 5 0 (fun _ => 0) 1).2.1 0 = 0 ∧
     (check_for_loops (fun _ => 0) (fun _ => [1, 2]) (fun _ => 7) 5 1
        (fun _ => 0) 6 5 0 (fun _ => 0) 1).2.2 0 = 0) :=
  ⟨(C5_check_for_loops_frame (fun _ => 0) (fun _ => [1, 2]) (fun _ => 7)
      5 1 (fun _ => 0) 6 5 0 (fun _ => 0) 1 0).1 (by decide),
   (C5_check_for_loops_frame (fun _ => 0) (fun _ => [1, 2]) (fun _ => 7)
      5 1 (fun _ => 0) 6 5 0 (fun _ => 0) 1 0).2 (by decide)⟩

/-- C6: whenever `_check_for_loops` deflects a parcel, the deflected
coordinates are strictly inside the interior (row in `[L0, L-2]`, column
in `[1, W-2]`) and the resulting flattened index, which the function
stores for the parcel, is positive (never 0), assuming the domain is
large enough to contain that interior. -/
theorem C6_deflection_bounds (sqrt : ℚ → ℚ) (walks : ℕ → List ℤ)
    (new_indices : ℕ → ℤ) (_step L0 : ℕ) (looped : ℕ → ℤ) (L W : ℕ)
    (CTR : ℤ) (flag : ℕ → ℤ) (nparcels p : ℕ)
    (hp : p < nparcels)
    (htrig : _step > L0 ∧ new_indices p > 0 ∧ has_repeat_ind (walks p))
    (hL : (L0 : ℤ) ≤ (L : ℤ) - 2) (hW : (1 : ℤ) ≤ (W : ℤ) - 2) :
    (L0 : ℤ) ≤ (deflect_coords sqrt (new_indices p) L W L0 CTR).1 ∧
    (deflect_coords sqrt (new_indices p) L W L0 CTR).1 ≤ (L : ℤ) - 2 ∧
    1 ≤ (deflect_coords sqrt (new_indices p) L W L0 CTR).2 ∧
    (deflect_coords sqrt (new_indices p) L W L0 CTR).2 ≤ (W : ℤ) - 2 ∧
    (check_for_loops sqrt walks new_indices _step L0 looped L W CTR flag
        nparcels).1 p =
      custom_ravel (deflect_coords sqrt (new_indices p) L W L0 CTR) W ∧
    0 < (check_for_loops sqrt walks new_indices _step L0 looped L W CTR
        flag nparcels).1 p := by
  have hx1 : (L0 : ℤ) ≤ (deflect_coords sqrt (new_indices p) L W L0
      CTR).1 := le_min hL (le_max_right _ _)
  have hx2 : (deflect_coords sqrt (new_indices p) L W L0 CTR).1 ≤
      (L : ℤ) - 2 := min_le_left _ _
  have hy1 : (1 : ℤ) ≤ (deflect_coords sqrt (new_indices p) L W L0
      CTR).2 := le_min hW (le_max_left _ _)
  have hy2 : (deflect_coords sqrt (new_indices p) L W L0 CTR).2 ≤
      (W : ℤ) - 2 := min_le_left _ _
  have heq : (check_for_loops sqrt walks new_indices _step L0 looped L W
      CTR flag nparcels).1 p =
      custom_ravel (deflect_coords sqrt (new_indices p) L W L0 CTR) W :=
    if_pos ⟨hp, htrig⟩
  refine ⟨hx1, hx2, hy1, hy2, heq, ?_⟩
  rw [heq]
  unfold custom_ravel
  have hW3 : (0 : ℤ) < (W : ℤ) := by omega
  have hL0 : (0 : ℤ) ≤ (L0 : ℤ) := Int.natCast_nonneg L0
  have hprod : 0 ≤ (deflect_coords sqrt (new_indices p) L W L0 CTR).1 *
      (W : ℤ) := mul_nonneg (le_trans hL0 hx1) hW3.le
  omega

/-- Witness for C6 at concrete inputs (a repeating walk, `sqrt` the
constant-zero oracle so the deflection keeps the unravelled point before
clamping). -/
theorem C6_deflection_bounds_witness :
    (2 : ℤ) ≤ (deflect_coords (fun _ => 0) 7 6 5 2 0).1 ∧
    (deflect_coords (fun _ => 0) 7 6 5 2 0).1 ≤ (6 : ℤ) - 2 ∧
    1 ≤ (deflect_coords (fun _ => 0) 7 6 5 2 0).2 ∧
    (deflect_coords (fun _ => 0) 7 6 5 2 0).2 ≤ (5 : ℤ) - 2 ∧
    (check_for_loops (fun _ => 0) (fun _ => [3, 3]) (fun _ => 7) 3 2
        (fun _ => 0) 6 5 0 (fun _ => 0) 1).1 0 =
      custom_ravel (deflect_coords (fun _ => 0) 7 6 5 2 0) 5 ∧
    0 < (check_for_loops (fun _ => 0) (fun _ => [3, 3]) (fun _ => 7) 3 2
        (fun _ => 0) 6 5 0 (fun _ => 0) 1).1 0 :=
  C6_deflection_bounds (fun _ => 0) (fun _ => [3, 3]) (fun _ => 7) 3 2
    (fun _ => 0) 6 5 0 (fun _ => 0) 1 0 (by decide)
    ⟨by decide, by decide, by decide⟩ (by decide) (by decide)

/-- C7 (amended): a parcel with `current_index = 0` is skipped and
assigned the stay direction 4, and its translated target index is 0 (the
terminated sentinel), so it stays terminated; a non-stay direction is
translated by applying the direction-to-offset tables to the parcel's
unravelled position; but the stay direction yields index 0, NOT the
parcel's current cell (see the counterexample). -/
theorem C7_direction_translation_amended (pick : ℕ → (ℕ → ℚ) → ℕ)
    (water_weights_flat : ℤ → ℕ → ℚ) (inds : ℕ → ℤ)
    (iwalk jwalk : ℕ → ℤ) (W : ℕ) (p : ℕ) :
    (inds p = 0 →
      choose_next_direction pick water_weights_flat inds p = 4 ∧
      calculate_new_ind iwalk jwalk W (inds p)
        (choose_next_direction pick water_weights_flat inds p) = 0) ∧
    (∀ q : ℕ, q ≠ 4 →
      calculate_new_ind iwalk jwalk W (inds p) q =
        custom_ravel ((custom_unravel (inds p) W).1 + jwalk q,
          (custom_unravel (inds p) W).2 + iwalk q) W) ∧
    calculate_new_ind iwalk jwalk W (inds p) 4 = 0 := by
  refine ⟨?_, ?_, ?_⟩
  · intro h0
    have hdir : choose_next_direction pick water_weights_flat inds p = 4 :=
      if_neg (fun hne => hne h0)
    refine ⟨hdir, ?_⟩
    rw [hdir]
    exact if_neg (fun hne => hne rfl)
  · intro q hq
    exact if_pos hq
  · exact if_neg (fun hne => hne rfl)

/-- C7 counterexample: a parcel at index 7 assigned the stay direction is
translated to index 0, not to its current cell 7, refuting "the stay
direction yielding the parcel's current cell". -/
theorem C7_direction_translation_counterexample :
    calculate_new_ind iwalk_flat jwalk_flat 5 7 4 = 0 ∧
    calculate_new_ind iwalk_flat jwalk_flat 5 7 4 ≠ 7 := by
  refine ⟨rfl, ?_⟩
  intro h
  exact absurd h (by decide)

/-- Witness for the amended C7 theorem. -/
theorem C7_direction_translation_amended_witness :
    (choose_next_direction (fun _ _ => 0) (fun _ _ => 0)
        (fun _ => 0) 0 = 4 ∧
      calculate_new_ind iwalk_flat jwalk_flat 5 ((fun _ => (0 : ℤ)) 0)
        (choose_next_direction (fun _ _ => 0) (fun _ _ => 0)
          (fun _ => 0) 0) = 0) ∧
    (∀ q : ℕ, q ≠ 4 →
      calculate_new_ind iwalk_flat jwalk_flat 5 ((fun _ => (0 : ℤ)) 0) q =
        custom_ravel
          ((custom_unravel ((fun _ => (0 : ℤ)) 0) 5).1 + jwalk_flat q,
           (custom_unravel ((fun _ => (0 : ℤ)) 0) 5).2 + iwalk_flat q) 5) ∧
    calculate_new_ind iwalk_flat jwalk_flat 5 ((fun _ => (0 : ℤ)) 0) 4 = 0 :=
  ⟨(C7_direction_translation_amended (fun _ _ => 0) (fun _ _ => 0)
      (fun _ => 0) iwalk_flat jwalk_flat 5 0).1 (by decide),
   (C7_direction_translation_amended (fun _ _ => 0) (fun _ _ => 0)
      (fun _ => 0) iwalk_flat jwalk_flat 5 0).2.1,
   (C7_direction_translation_amended (fun _ _ => 0) (fun _ _ => 0)
      (fun _ => 0) iwalk_flat jwalk_flat 5 0).2.2⟩

lemma walk_flag_dH_visit (uw ux uy depth : Fld) (dx u0 h0 S0 : ℚ)
    (c cp : ℕ × ℕ) (st : WalkState) :
    (walk_flag_dH uw ux uy depth dx u0 h0 S0 c cp st).visit = st.visit := by
  unfold walk_flag_dH
  split
  · split
    · split <;> rfl
    · split <;> rfl
  · rfl

lemma walk_step_visit (uw ux uy depth : Fld) (dx u0 h0 S0 : ℚ)
    (coords : List (ℕ × ℕ)) (st : WalkState) (it : ℕ) (x y : ℕ) :
    (walk_step uw ux uy depth dx u0 h0 S0 coords st it).visit x y =
      if x = (coords.getD it (0, 0)).1 ∧ y = (coords.getD it (0, 0)).2
      then st.visit x y + 1 else st.visit x y := by
  show (if x = (coords.getD it (0, 0)).1 ∧ y = (coords.getD it (0, 0)).2
    then (walk_flag_dH uw ux uy depth dx u0 h0 S0 _ _ st).visit x y + 1
    else (walk_flag_dH uw ux uy depth dx u0 h0 S0 _ _ st).visit x y) = _
  rw [walk_flag_dH_visit]

lemma walk_step_visit_mono (uw ux uy depth : Fld) (dx u0 h0 S0 : ℚ)
    (coords : List (ℕ × ℕ)) (st : WalkState) (it : ℕ) (x y : ℕ) :
    st.visit x y ≤
      (walk_step uw ux uy depth dx u0 h0 S0 coords st it).visit x y := by
  rw [walk_step_visit]
  split
  · exact le_add_of_nonneg_right zero_le_one
  · exact le_refl _

lemma fold_walk_visit_mono (uw ux uy depth : Fld) (dx u0 h0 S0 : ℚ)
    (coords : List (ℕ × ℕ)) (its : List ℕ) (st : WalkState) (x y : ℕ) :
    st.visit x y ≤
      (its.foldl (walk_step uw ux uy depth dx u0 h0 S0 coords) st).visit
        x y := by
  induction its generalizing st with
  | nil => exact le_refl _
  | cons a as ih =>
    exact le_trans
      (walk_step_visit_mono uw ux uy depth dx u0 h0 S0 coords st a x y)
      (ih _)

/-- C8 (amended): in `_accumulate_free_surface_walks` a parcel's walk
contributes to the accumulators only if the last positive index of its
recorded path lies on an ocean/edge cell (`cell_type == -1`) and its loop
counter is 0; a disqualified walk (or one with no positive entries)
contributes nothing to either accumulator.  Conversely a qualified walk
with fewer than two positive entries also contributes nothing (its
backward loop is empty), while a qualified walk with at least two
positive entries does contribute: the backward loop strictly increases
the visit count of the second-to-last path cell.  Together the four
conjuncts give both directions of the amended "iff".  (The
counterexample shows the original unconditional "iff" failing on a
qualified single-entry walk.) -/
theorem C8_contribution_amended (cell_type : IFld) (uw ux uy depth : Fld)
    (dx u0 h0 H_SL S0 : ℚ) (W : ℕ) (acc : Fld × Fld) (walk : List ℤ)
    (loopedp : ℤ) :
    ((walk_coords W walk).getLast? = none →
      process_parcel cell_type uw ux uy depth dx u0 h0 H_SL S0 W acc
        walk loopedp = acc) ∧
    (∀ lc : ℕ × ℕ, (walk_coords W walk).getLast? = some lc →
      ¬(cell_type lc.1 lc.2 = -1 ∧ loopedp = 0) →
      process_parcel cell_type uw ux uy depth dx u0 h0 H_SL S0 W acc
        walk loopedp = acc) ∧
    (∀ lc : ℕ × ℕ, (walk_coords W walk).getLast? = some lc →
      cell_type lc.1 lc.2 = -1 → loopedp = 0 →
      (walk_coords W walk).length < 2 →
      process_parcel cell_type uw ux uy depth dx u0 h0 H_SL S0 W acc
        walk loopedp = acc) ∧
    (∀ lc : ℕ × ℕ, (walk_coords W walk).getLast? = some lc →
      cell_type lc.1 lc.2 = -1 → loopedp = 0 →
      2 ≤ (walk_coords W walk).length →
      acc.1 ((walk_coords W walk).getD ((walk_coords W walk).length - 2)
          (0, 0)).1
        ((walk_coords W walk).getD ((walk_coords W walk).length - 2)
          (0, 0)).2 <
      (process_parcel cell_type uw ux uy depth dx u0 h0 H_SL S0 W acc
          walk loopedp).1
        ((walk_coords W walk).getD ((walk_coords W walk).length - 2)
          (0, 0)).1
        ((walk_coords W walk).getD ((walk_coords W walk).length - 2)
          (0, 0)).2) := by
  refine ⟨?_, ?_, ?_, ?_⟩
  · intro hnone
    simp only [process_parcel, hnone]
  · intro lc hlast hnq
    simp only [process_parcel, hlast, if_neg hnq]
  · intro lc hlast hct hloop hlen
    simp only [process_parcel, hlast, if_pos (And.intro hct hloop)]
    rw [show (walk_coords W walk).length - 1 = 0 by omega]
    rfl
  · intro lc hlast hct hloop hlen
    simp only [process_parcel, hlast, if_pos (And.intro hct hloop)]
    have hsplit : (List.range ((walk_coords W walk).length - 1)).reverse =
        ((walk_coords W walk).length - 2) ::
          (List.range ((walk_coords W walk).length - 2)).reverse := by
      rw [show (walk_coords W walk).length - 1 =
        ((walk_coords W walk).length - 2) + 1 by omega, List.range_succ,
        List.reverse_append]
      simp
    rw [hsplit, List.foldl_cons]
    refine lt_of_lt_of_le ?_ (fold_walk_visit_mono uw ux uy depth dx u0
      h0 S0 (walk_coords W walk) _ _ _ _)
    rw [walk_step_visit]
    rw [if_pos ⟨rfl, rfl⟩]
    show acc.1 _ _ < acc.1 _ _ + 1
    exact lt_add_of_pos_right _ one_pos

/-- C8 counterexample: a single-entry walk terminating on an ocean cell
with loop counter 0 qualifies per the claim, yet `sfc_visit` and
`sfc_sum` stay identically zero: the qualified parcel contributes
nothing, refuting the claimed "if and only if". -/
theorem C8_contribution_counterexample :
    (walk_coords 2 [3]).getLast? = some (1, 1) ∧
    ((fun _ _ => (-1 : ℤ)) : IFld) 1 1 = -1 ∧
    ((fun _ : ℕ => (0 : ℤ)) 0 = 0) ∧
    accumulate_free_surface_walks [[3]] (fun _ => 0) (fun _ _ => -1)
        (fun _ _ => 0) (fun _ _ => 0) (fun _ _ => 0) (fun _ _ => 0)
        1 1 1 1 1 2 =
      (((fun _ _ => 0) : Fld), ((fun _ _ => 0) : Fld)) :=
  ⟨by decide, rfl, rfl, rfl⟩

/-- Witness for the amended C8 theorem: the qualified-single-entry
conjunct at the walk `[3]` and the strict-increase conjunct at the
two-entry qualifying walk `[1, 3]`. -/
theorem C8_contribution_amended_witness :
    (walk_coords 2 [3]).getLast? = some (1, 1) ∧
    (walk_coords 2 [3]).length < 2 ∧
    process_parcel (fun _ _ => -1) (fun _ _ => 0) (fun _ _ => 0)
        (fun _ _ => 0) (fun _ _ => 0) 1 1 1 1 1 2
        ((fun _ _ => 0, fun _ _ => 0) : Fld × Fld) [3] 0 =
      ((fun _ _ => 0, fun _ _ => 0) : Fld × Fld) ∧
    (walk_coords 2 [1, 3]).getLast? = some (1, 1) ∧
    ((fun _ _ => (-1 : ℤ)) : IFld) 1 1 = -1 ∧
    2 ≤ (walk_coords 2 [1, 3]).length ∧
    (((fun _ _ => 0, fun _ _ => 0) : Fld × Fld)).1
        ((walk_coords 2 [1, 3]).getD ((walk_coords 2 [1, 3]).length - 2)
          (0, 0)).1
        ((walk_coords 2 [1, 3]).getD ((walk_coords 2 [1, 3]).length - 2)
          (0, 0)).2 <
      (process_parcel (fun _ _ => -1) (fun _ _ => 0) (fun _ _ => 0)
          (fun _ _ => 0) (fun _ _ => 0) 1 1 1 1 1 2
          ((fun _ _ => 0, fun _ _ => 0) : Fld × Fld) [1, 3] 0).1
        ((walk_coords 2 [1, 3]).getD ((walk_coords 2 [1, 3]).length - 2)
          (0, 0)).1
        ((walk_coords 2 [1, 3]).getD ((walk_coords 2 [1, 3]).length - 2)
          (0, 0)).2 :=
  ⟨by decide, by decide,
   (C8_contribution_amended (fun _ _ => -1) (fun _ _ => 0) (fun _ _ => 0)
      (fun _ _ => 0) (fun _ _ => 0) 1 1 1 1 1 2
      ((fun _ _ => 0, fun _ _ => 0) : Fld × Fld) [3] 0).2.2.1
     (1, 1) (by decide) rfl rfl (by decide),
   by decide, rfl, by decide,
   (C8_contribution_amended (fun _ _ => -1) (fun _ _ => 0) (fun _ _ => 0)
      (fun _ _ => 0) (fun _ _ => 0) 1 1 1 1 1 2
      ((fun _ _ => 0, fun _ _ => 0) : Fld × Fld) [1, 3] 0).2.2.2
     (1, 1) (by decide) rfl rfl (by decide)⟩

lemma route_round_step (o : RngOracles) (s : DeltaModel)
    (wwf : ℤ → ℕ → ℚ) (st : RouteState) :
    (route_round o s wwf st).step = st.step := rfl

lemma route_loop_step_le (o : RngOracles) (s : DeltaModel)
    (wwf : ℤ → ℕ → ℚ) :
    ∀ (k : ℕ) (st : RouteState), s.stepmax - st.step ≤ k →
      st.step ≤ s.stepmax → (route_loop o s wwf st).step ≤ s.stepmax := by
  intro k
  induction k with
  | zero =>
    intro st hk hst
    rw [route_loop, dif_neg ?_]
    · exact hst
    · rintro ⟨-, hlt⟩
      omega
  | succ k ih =>
    intro st hk hst
    rw [route_loop]
    split
    · rename_i h
      refine ih _ ?_ ?_
      · rw [route_round_step]
        show s.stepmax - (st.step + 1) ≤ k
        omega
      · rw [route_round_step]
        show st.step + 1 ≤ s.stepmax
        omega
    · exact hst

/-- C9: `run_water_iteration` always terminates, executing at most
`stepmax` stepping rounds (the round counter starts at 0, is bumped once
per executed round, and never exceeds `stepmax`), and it is
deterministic given a fixed random seed: two runs whose determinized
random/float oracles agree pointwise, on the same remaining inputs,
produce identical outputs (flux fields, recorded walks and all loop
state). -/
theorem C9_run_water_iteration_bounded_deterministic (o : RngOracles)
    (s : DeltaModel) (wwf : ℤ → ℕ → ℚ) :
    (run_water_iteration o s wwf).step ≤ s.stepmax ∧
    (∀ o2 : RngOracles,
      (∀ t p w, o.pick t p w = o2.pick t p w) →
      (∀ p, o.start p = o2.start p) →
      (∀ q, o.dist q = o2.dist q) →
      (∀ x, o.sqrt x = o2.sqrt x) →
      run_water_iteration o s wwf = run_water_iteration o2 s wwf) := by
  constructor
  · exact route_loop_step_le o s wwf s.stepmax _ (Nat.sub_le _ _)
      (Nat.zero_le _)
  · intro o2 hpick hstart hdist hsqrt
    have ho : o = o2 := by
      obtain ⟨p1, s1, d1, q1⟩ := o
      obtain ⟨p2, s2, d2, q2⟩ := o2
      simp only at hpick hstart hdist hsqrt
      congr 1
      · funext t p w
        exact hpick t p w
      · funext p
        exact hstart p
      · funext q
        exact hdist q
      · funext x
        exact hsqrt x
    rw [ho]

/-- Witness for C9 at a concrete oracle bundle and model. -/
theorem C9_run_water_iteration_witness :
    (run_water_iteration exO exBase (fun _ _ => 0)).step ≤
      exBase.stepmax ∧
    run_water_iteration exO exBase (fun _ _ => 0) =
      run_water_iteration exO exBase (fun _ _ => 0) :=
  ⟨(C9_run_water_iteration_bounded_deterministic exO exBase
      (fun _ _ => 0)).1,
   (C9_run_water_iteration_bounded_deterministic exO exBase
      (fun _ _ => 0)).2 exO (fun _ _ _ => rfl) (fun _ => rfl)
     (fun _ => rfl) (fun _ => rfl)⟩

end WaterTools
